import Mathlib

/-!
Shallow embedding of the order-capture application (`src/app.py`):
the session cart operations, the catalog filter pipeline of the order
form, order submission into the SQLite ledger, and the admin export
query.  Quantities are modelled as exact rationals (`ℚ`); no stated
property depends on IEEE floating-point rounding.  A raw quantity field
is an `Option ℚ`: `none` stands for text that Python's `float` fails to
parse (the code turns such text into `0` in its `try/except`).
-/

/-- `pat` occurs as a contiguous substring of `s`. -/
def strContains (s pat : String) : Bool :=
  decide (pat.toList <:+: s.toList)

/-- Code-point lexicographic `≤` on character lists: the comparison
Python uses for `str`. -/
def charListLe : List Char → List Char → Bool
  | [], _ => true
  | _ :: _, [] => false
  | a :: as, b :: bs =>
    if a < b then true else if b < a then false else charListLe as bs

/-- Python's `<=` on strings (code-point lexicographic). -/
def strLe (a b : String) : Bool := charListLe a.data b.data

/-- Python's `<` on strings. -/
def strLt (a b : String) : Bool := strLe a b && !(a == b)

/-- `strLe` as a relation, for use with the sorting algorithms. -/
def strLeP (a b : String) : Prop := strLe a b = true

instance : DecidableRel strLeP := fun a b => by
  unfold strLeP; infer_instance

/-- Python's `str.lower()`, character by character. -/
def lowerStr (s : String) : String := ⟨s.data.map Char.toLower⟩

/-- One catalog row of `items.xlsx` (the fields of `REQUIRED_ITEMS`). -/
structure Item where
  code : String
  name : String
  domain : String
  category : String
  subcategory : String
deriving DecidableEq, Repr

/-- One row of a `customer_items` workbook: `(CustomerNumber, ItemCode)`. -/
abbrev CustRow := String × String

/-- A cart line `{"qty": float, "name": str}` from `session['cart'][cust]`. -/
structure CartRec where
  qty : ℚ
  name : String
deriving DecidableEq, Repr

/-- A customer's cart: a Python dict `ItemCode ↦ record`, kept in
insertion order as dicts are. -/
abbrev Cart := List (String × CartRec)

/-- Dict key lookup `cart.get(code)`. -/
def cartLookup : Cart → String → Option CartRec
  | [], _ => none
  | (k, v) :: t, code => if k = code then some v else cartLookup t code

/-- Python dict assignment `cart[code] = v`: replace the entry in place
when the key is present (dicts keep the position of an assigned key),
otherwise append at the end (dicts preserve insertion order). -/
def cartUpsert : Cart → String → CartRec → Cart
  | [], code, v => [(code, v)]
  | (k, w) :: t, code, v =>
    if k = code then (code, v) :: t else (k, w) :: cartUpsert t code v

/-- Python `cart.pop(code, None)`: drop the entry for `code`, if any.
Dict keys are unique, so dropping every hit drops the one entry. -/
def cartErase : Cart → String → Cart
  | [], _ => []
  | (k, w) :: t, code =>
    if k = code then cartErase t code else (k, w) :: cartErase t code

/-- `items_df.loc[code, "ItemName"] if code in items_df.index else ""`
(app.py:289): the catalog name for a code, or `""` when absent. -/
def itemName (items : List Item) (code : String) : String :=
  match items.find? (fun i => i.code == code) with
  | some i => i.name
  | none => ""

/-- The quantity after `try: qty = float(val) ... except: qty = 0`:
an unparsable (or empty) text counts as `0`. -/
def parseQty (raw : Option ℚ) : ℚ := raw.getD 0

/-- Body of the `update_cart` loop for one form field `qty_<code>`
(app.py:280-293): positive quantity upserts a line whose name is a
catalog snapshot, anything else removes the code from the cart. -/
def update_cart_step (items : List Item) (cart : Cart) (code : String)
    (raw : Option ℚ) : Cart :=
  if 0 < parseQty raw then
    cartUpsert cart code ⟨parseQty raw, itemName items code⟩
  else
    cartErase cart code

/-- `POST /update_cart` (`update_cart`, app.py:267-299): fold the
submitted `qty_` fields, in form order, over the customer's cart. -/
def update_cart (items : List Item) (cart : Cart)
    (payload : List (String × Option ℚ)) : Cart :=
  payload.foldl (fun c p => update_cart_step items c p.1 p.2) cart

/-- `POST /cart/update` (`cart_update_line`, app.py:346-365): like one
`update_cart` step, but an existing nonempty name is kept and the
catalog is consulted only when no name is on the line yet. -/
def cart_update_line (items : List Item) (cart : Cart) (code : String)
    (raw : Option ℚ) : Cart :=
  if 0 < parseQty raw then
    let name0 := match cartLookup cart code with
      | some r => r.name
      | none => ""
    let name := if name0 = "" then itemName items code else name0
    cartUpsert cart code ⟨parseQty raw, name⟩
  else
    cartErase cart code

/-- `POST /cart/remove` (`cart_remove`, app.py:337-344). -/
def cart_remove (cart : Cart) (code : String) : Cart :=
  cartErase cart code

/-- One cart-mutating request of the application. -/
inductive CartOp where
  | batch (payload : List (String × Option ℚ))
  | line (code : String) (raw : Option ℚ)
  | drop (code : String)

def applyCartOp (items : List Item) (cart : Cart) : CartOp → Cart
  | .batch payload => update_cart items cart payload
  | .line code raw => cart_update_line items cart code raw
  | .drop code => cart_remove cart code

def applyCartOps (items : List Item) (cart : Cart) (ops : List CartOp) : Cart :=
  ops.foldl (applyCartOp items) cart

/-- `sorted(series.dropna().unique().tolist())` (app.py:239-243): the
ascending list of distinct values.  Field values are strings in this
model, so there are no NaN entries for `dropna` to discard. -/
def sortedDistinct (l : List String) : List String :=
  List.insertionSort strLeP l.dedup

/-- `cust_items[cust_items["CustomerNumber"] == cid]["ItemCode"].unique().tolist()`
(app.py:211): the entitlement allow-list of item codes for one customer.
Only membership in this list is used downstream (`isin`), so the
de-duplication order is immaterial. -/
def allowedCodes (cust_items : List CustRow) (cid : String) : List String :=
  ((cust_items.filter (fun r => r.1 == cid)).map (fun r => r.2)).dedup

/-- The display ordering on `["Domain", "Category", "SubCategory", "ItemName"]`
used by `sort_values(..., kind="stable")` (app.py:229-232). -/
def displayLe (a b : Item) : Prop :=
  strLt a.domain b.domain = true ∨ (a.domain = b.domain ∧
    (strLt a.category b.category = true ∨ (a.category = b.category ∧
      (strLt a.subcategory b.subcategory = true ∨ (a.subcategory = b.subcategory ∧
        strLe a.name b.name = true)))))

instance : DecidableRel displayLe := fun a b => by
  unfold displayLe; infer_instance

/-- The characters Python's `re` treats as special.  A pattern free of
them is matched by `re.search` exactly as a literal substring. -/
def regexMetachars : List Char :=
  ['.', '^', '$', '*', '+', '?', '\x7b', '\x7d', '[', ']', '\\', '|', '(', ')']

/-- The query contains no regex metacharacter, so the `str.contains`
mask — whose default is `regex=True`, i.e. `re.search` — degenerates to
literal substring containment. -/
def isLiteralPattern (q : String) : Bool :=
  q.data.all (fun c => !regexMetachars.contains c)

/-- The free-text mask of app.py:225 for metacharacter-free queries:
pandas `str.contains` hands the query to `re.search` (`regex=True` is
its default), which for a pattern without regex metacharacters is
exactly substring containment — the case this definition embeds.  The
(already lowered) query is looked for in the lowered item name and the
lowered item code (`ItemName_lc`/`ItemCode_lc` are lowered copies built
in `load_items`, app.py:88-89).  A query containing metacharacters is
regex-matched by the library (an invalid pattern raises) and is outside
this model. -/
def q_match (i : Item) (ql : String) : Bool :=
  strContains (lowerStr i.name) ql || strContains (lowerStr i.code) ql

/-- The visible item grid computed by `order_form` (app.py:206-232):
empty without a selected customer; base set per the `show_set` scope
toggle; then the `Domain`/`Category`/`SubCategory` equality filters and
the free-text filter, each skipped when its parameter is empty; finally
the stable display sort.  The query `q` arrives raw and is lowered here,
as app.py:191 does; the free-text stage is modelled for
metacharacter-free queries (see `q_match`). -/
def visible_items (items : List Item) (cust_items : List CustRow)
    (cid show_set domain category subcategory q : String) : List Item :=
  if cid = "" then []
  else
    let base := if show_set = "customer" then
        items.filter (fun i => (allowedCodes cust_items cid).contains i.code)
      else items
    let s1 := if domain = "" then base else base.filter (fun i => i.domain == domain)
    let s2 := if category = "" then s1 else s1.filter (fun i => i.category == category)
    let s3 := if subcategory = "" then s2 else s2.filter (fun i => i.subcategory == subcategory)
    let s4 := if q = "" then s3 else s3.filter (fun i => q_match i (lowerStr q))
    s4.insertionSort displayLe

/-- `context_items` of app.py:238: the unfiltered catalog when the scope
is `"all"` or no customer is selected, otherwise the fully filtered
visible grid. -/
def context_items (items : List Item) (cust_items : List CustRow)
    (cid show_set domain category subcategory q : String) : List Item :=
  if show_set = "all" ∨ cid = "" then items
  else visible_items items cust_items cid show_set domain category subcategory q

/-- `domains` (app.py:239). -/
def facet_domains (items : List Item) (cust_items : List CustRow)
    (cid show_set domain category subcategory q : String) : List String :=
  sortedDistinct ((context_items items cust_items cid show_set domain category
    subcategory q).map (·.domain))

/-- `categories` (app.py:240). -/
def facet_categories (items : List Item) (cust_items : List CustRow)
    (cid show_set domain category subcategory q : String) : List String :=
  sortedDistinct ((context_items items cust_items cid show_set domain category
    subcategory q).map (·.category))

/-- `subcategories` (app.py:241). -/
def facet_subcategories (items : List Item) (cust_items : List CustRow)
    (cid show_set domain category subcategory q : String) : List String :=
  sortedDistinct ((context_items items cust_items cid show_set domain category
    subcategory q).map (·.subcategory))

/-- A row of the `orders` table (app.py:111-119). -/
structure OrderRow where
  id : ℕ
  customer_number : String
  sales_manager : String
  created_at : String
  delivery_date : Option String
deriving DecidableEq, Repr

/-- A row of the `order_lines` table (app.py:120-128). -/
structure LineRow where
  id : ℕ
  order_id : ℕ
  item_code : String
  quantity : ℚ
deriving DecidableEq, Repr

/-- The SQLite database `orders.db`. -/
structure Ledger where
  orders : List OrderRow
  lines : List LineRow
deriving DecidableEq, Repr

/-- SQLite `INTEGER PRIMARY KEY AUTOINCREMENT` row id for a table this
application never deletes from: one more than the largest id present
(`0` when the table is empty, so ids start at `1`). -/
def nextRowId (ids : List ℕ) : ℕ := ids.foldr max 0 + 1

inductive SubmitResult where
  | noCustomer
  | emptyCart
  | ok (orderId : ℕ)
deriving DecidableEq, Repr

structure SubmitOut where
  result : SubmitResult
  ledger : Ledger
  cart : Cart
deriving DecidableEq, Repr

/-- The body of the line-insertion loop of `submit_order`
(app.py:396-402): a cart entry with positive quantity is appended to
`order_lines`, anything else is skipped. -/
def insertLine (oid : ℕ) (ls : List LineRow) (p : String × CartRec) :
    List LineRow :=
  if 0 < p.2.qty then
    ls ++ [⟨nextRowId (ls.map (·.id)), oid, p.1, p.2.qty⟩]
  else ls

/-- `POST /submit` (`submit_order`, app.py:370-410): reject when no
customer is selected or the customer's cart is empty (nothing written);
otherwise insert one `orders` header row, then one `order_lines` row per
cart entry with positive quantity, in cart order, and clear the cart. -/
def submit_order (led : Ledger) (cart : Cart)
    (cid sm created_at dd : String) : SubmitOut :=
  if cid = "" then ⟨.noCustomer, led, cart⟩
  else if cart = [] then ⟨.emptyCart, led, cart⟩
  else
    let oid := nextRowId (led.orders.map (·.id))
    let orders := led.orders ++
      [⟨oid, cid, sm, created_at, if dd = "" then none else some dd⟩]
    ⟨.ok oid, ⟨orders, cart.foldl (insertLine oid) led.lines⟩, []⟩

/-- The inputs of one `POST /submit` request. -/
structure SubmitReq where
  cart : Cart
  cid : String
  sm : String
  created_at : String
  dd : String

/-- A sequence of order submissions with no interleaving: each request
runs against the ledger left by the previous one.  Returns the final
ledger and the serials of the successful submissions, in order. -/
def runSubmits : Ledger → List SubmitReq → Ledger × List ℕ
  | led, [] => (led, [])
  | led, s :: rest =>
    let out := submit_order led s.cart s.cid s.sm s.created_at s.dd
    let next := runSubmits out.ledger rest
    (next.1, (match out.result with | .ok oid => [oid] | _ => []) ++ next.2)

/-- One row of the `_query_orders` result (app.py:431-437), together
with the `l.id` used by the `ORDER BY` (not a selected column). -/
structure QRow where
  order_id : ℕ
  customer_number : String
  created_at : String
  delivery_date : Option String
  item_code : String
  quantity : ℚ
  line_id : ℕ
deriving DecidableEq, Repr

/-- `ORDER BY o.id ASC, l.id ASC` (app.py:445). -/
def qRowLe (a b : QRow) : Prop :=
  a.order_id < b.order_id ∨ (a.order_id = b.order_id ∧ a.line_id ≤ b.line_id)

instance : DecidableRel qRowLe := fun a b => by
  unfold qRowLe; infer_instance

instance : IsTotal QRow qRowLe := ⟨by intro a b; unfold qRowLe; omega⟩

instance : IsTrans QRow qRowLe := ⟨by intro a b c; unfold qRowLe; omega⟩

/-- The row set of the `_query_orders` SQL (app.py:431-444) before its
`ORDER BY`: the join of `orders` with `order_lines`, restricted to the
optional inclusive creation-timestamp range.  `datetime(X) >= datetime(Y)`
on the ISO-8601 strings this application writes coincides with
code-point lexicographic comparison. -/
def rangeFilteredRows (led : Ledger) (from_dt to_dt : String) : List QRow :=
  let joined := led.orders.flatMap (fun o =>
    (led.lines.filter (fun l => l.order_id == o.id)).map (fun l =>
      ⟨o.id, o.customer_number, o.created_at, o.delivery_date,
        l.item_code, l.quantity, l.id⟩))
  let f1 := if from_dt = "" then joined
    else joined.filter (fun r => strLe from_dt r.created_at)
  if to_dt = "" then f1
  else f1.filter (fun r => strLe r.created_at to_dt)

/-- `_query_orders` (app.py:428-448): the range-filtered join, sorted by
`ORDER BY o.id ASC, l.id ASC`. -/
def query_orders (led : Ledger) (from_dt to_dt : String) : List QRow :=
  (rangeFilteredRows led from_dt to_dt).insertionSort qRowLe

/-- Maximum `orders.id` present in the ledger, `0` when there are none:
the value SQLite's `AUTOINCREMENT` continues from for this delete-free
table. -/
def maxOrderId (led : Ledger) : ℕ := (led.orders.map (·.id)).foldr max 0

/-- The ordering the spec asserts for export rows: by order identifier,
then by item code within an order.  Stated from the spec's words, to be
compared with the `ORDER BY` the code actually issues (`qRowLe`). -/
def specExportLe (a b : QRow) : Prop :=
  a.order_id < b.order_id ∨
    (a.order_id = b.order_id ∧ strLe a.item_code b.item_code = true)

instance : DecidableRel specExportLe := fun a b => by
  unfold specExportLe; infer_instance

/-- The free-text match the spec asserts: the query is a
case-insensitive substring of any of code, name, domain, category or
subcategory.  Stated from the spec's words, to be compared with the
mask the code applies (`q_match`). -/
def specQMatch (i : Item) (q : String) : Bool :=
  strContains (lowerStr i.code) (lowerStr q) ||
    strContains (lowerStr i.name) (lowerStr q) ||
    strContains (lowerStr i.domain) (lowerStr q) ||
    strContains (lowerStr i.category) (lowerStr q) ||
    strContains (lowerStr i.subcategory) (lowerStr q)

/-- One spreadsheet cell of the export: text, number, or left blank. -/
inductive Cell where
  | s (v : String)
  | n (v : ℚ)
  | blank
deriving DecidableEq, Repr

/-- The shaped export table: header row and data rows. -/
structure ExportTable where
  header : List String
  rows : List (List Cell)
deriving DecidableEq, Repr

/-- `DEFAULT_EXPORT_ORDER` (app.py:45-49). -/
def DEFAULT_EXPORT_ORDER : List String :=
  ["OrderSerial", "ReferenceDate", "CustomerNumber", "ItemCode", "Quantity",
    "DocType", "SalesOrg", "DistrChannel", "Division", "Plant", "Currency"]

/-- `DEFAULT_EXPORT_FIXED` (app.py:36-43). -/
def DEFAULT_EXPORT_FIXED : List (String × String) :=
  [("DocType", "ZSTD"), ("SalesOrg", "1000"), ("DistrChannel", "10"),
    ("Division", "00"), ("Plant", "1000"), ("Currency", "ILS")]

/-- `pd.to_datetime(created_at).dt.date` on an ISO timestamp
(app.py:503): the part before the `T` separator. -/
def dateOnly (s : String) : String := ⟨s.data.takeWhile (fun c => c ≠ 'T')⟩

/-- The dense serial of app.py:499-500: position, starting at 1, of an
order id within the ascending list of distinct exported order ids. -/
def orderSerialOf (ids : List ℕ) (oid : ℕ) : ℕ :=
  (List.insertionSort (· ≤ ·) ids.dedup).indexOf oid + 1

/-- The value of one target column for one exported row
(app.py:511-527): a template constant overwrites everything; otherwise
the variable columns come from the query row; any other target column
stays blank. -/
def cellFor (fixed : List (String × String)) (serial : ℕ) (r : QRow)
    (col : String) : Cell :=
  match fixed.lookup col with
  | some v => .s v
  | none =>
    if col = "OrderSerial" then .n serial
    else if col = "ReferenceDate" then .s (dateOnly r.created_at)
    else if col = "CustomerNumber" then .s r.customer_number
    else if col = "ItemCode" then .s r.item_code
    else if col = "Quantity" then .n r.quantity
    else .blank

/-- The table shaping of `admin_export` (app.py:450-533): an empty query
result is written as `pd.DataFrame().to_excel(...)` — a sheet with no
columns and no rows; otherwise rows with positive quantity are kept (in
query order) and each target column is filled per `cellFor`. -/
def admin_export (led : Ledger) (fields_order : List String)
    (fixed : List (String × String)) (from_dt to_dt : String) : ExportTable :=
  let df := query_orders led from_dt to_dt
  if df = [] then ⟨[], []⟩
  else
    let pos := df.filter (fun r => decide (0 < r.quantity))
    let ids := pos.map (·.order_id)
    ⟨fields_order,
      pos.map (fun r =>
        fields_order.map (cellFor fixed (orderSerialOf ids r.order_id) r))⟩

/-! ### Elementary cart lemmas -/

theorem cartLookup_upsert_self (cart : Cart) (code : String) (v : CartRec) :
    cartLookup (cartUpsert cart code v) code = some v := by
  induction cart with
  | nil => simp [cartUpsert, cartLookup]
  | cons p t ih =>
    obtain ⟨k, w⟩ := p
    by_cases h : k = code <;> simp [cartUpsert, cartLookup, h, ih]

theorem cartLookup_upsert_ne (cart : Cart) (code c : String) (v : CartRec)
    (h : c ≠ code) :
    cartLookup (cartUpsert cart code v) c = cartLookup cart c := by
  induction cart with
  | nil => simp [cartUpsert, cartLookup, Ne.symm h]
  | cons p t ih =>
    obtain ⟨k, w⟩ := p
    by_cases hk : k = code
    · simp [cartUpsert, cartLookup, hk, Ne.symm h]
    · by_cases hc : k = c <;> simp [cartUpsert, cartLookup, hk, hc, h, ih]

theorem cartLookup_erase_self (cart : Cart) (code : String) :
    cartLookup (cartErase cart code) code = none := by
  induction cart with
  | nil => rfl
  | cons p t ih =>
    obtain ⟨k, w⟩ := p
    by_cases h : k = code <;> simp [cartErase, cartLookup, h, ih]

theorem cartLookup_erase_ne (cart : Cart) (code c : String) (h : c ≠ code) :
    cartLookup (cartErase cart code) c = cartLookup cart c := by
  induction cart with
  | nil => rfl
  | cons p t ih =>
    obtain ⟨k, w⟩ := p
    by_cases hk : k = code
    · simp [cartErase, cartLookup, hk, Ne.symm h, ih]
    · by_cases hc : k = c <;> simp [cartErase, cartLookup, hk, hc, h, ih]

theorem cartErase_of_not_mem (cart : Cart) (code : String)
    (h : cartLookup cart code = none) : cartErase cart code = cart := by
  induction cart with
  | nil => rfl
  | cons p t ih =>
    obtain ⟨k, w⟩ := p
    simp only [cartLookup] at h
    by_cases hk : k = code
    · simp [hk] at h
    · simp only [if_neg hk] at h
      simp [cartErase, hk, ih h]

theorem cartLookup_mem {cart : Cart} {c : String} {rec : CartRec}
    (h : cartLookup cart c = some rec) : (c, rec) ∈ cart := by
  induction cart with
  | nil => simp [cartLookup] at h
  | cons p t ih =>
    obtain ⟨k, w⟩ := p
    simp only [cartLookup] at h
    by_cases hk : k = c
    · simp only [if_pos hk] at h
      obtain rfl := hk
      obtain rfl : w = rec := by injection h
      exact List.mem_cons_self ..
    · exact List.mem_cons_of_mem _ (ih (by simpa [if_neg hk] using h))

theorem mem_cartUpsert {cart : Cart} {code : String} {v : CartRec}
    {p : String × CartRec} (hp : p ∈ cartUpsert cart code v) :
    p = (code, v) ∨ p ∈ cart := by
  induction cart with
  | nil => simpa [cartUpsert] using hp
  | cons q t ih =>
    obtain ⟨k, w⟩ := q
    by_cases hk : k = code
    · simp only [cartUpsert, if_pos hk, List.mem_cons] at hp
      rcases hp with hp | hp
      · exact Or.inl hp
      · exact Or.inr (List.mem_cons_of_mem _ hp)
    · simp only [cartUpsert, if_neg hk, List.mem_cons] at hp
      rcases hp with hp | hp
      · exact Or.inr (by simp [hp])
      · rcases ih hp with hp | hp
        · exact Or.inl hp
        · exact Or.inr (List.mem_cons_of_mem _ hp)

theorem mem_cartErase {cart : Cart} {code : String} {p : String × CartRec}
    (hp : p ∈ cartErase cart code) : p ∈ cart := by
  induction cart with
  | nil => simp [cartErase] at hp
  | cons q t ih =>
    obtain ⟨k, w⟩ := q
    by_cases hk : k = code
    · exact List.mem_cons_of_mem _ (ih (by simpa [cartErase, hk] using hp))
    · simp only [cartErase, if_neg hk, List.mem_cons] at hp
      rcases hp with hp | hp
      · simp [hp]
      · exact List.mem_cons_of_mem _ (ih hp)

/-- Every cart line carries a positive quantity. -/
def CartInv (cart : Cart) : Prop := ∀ p ∈ cart, 0 < p.2.qty

theorem update_cart_nil (items : List Item) (cart : Cart) :
    update_cart items cart [] = cart := rfl

theorem update_cart_cons (items : List Item) (cart : Cart)
    (p : String × Option ℚ) (rest : List (String × Option ℚ)) :
    update_cart items cart (p :: rest) =
      update_cart items (update_cart_step items cart p.1 p.2) rest := rfl

theorem cartInv_update_cart_step (items : List Item) {cart : Cart}
    (h : CartInv cart) (code : String) (raw : Option ℚ) :
    CartInv (update_cart_step items cart code raw) := by
  unfold update_cart_step
  by_cases hq : 0 < parseQty raw
  · rw [if_pos hq]
    intro p hp
    rcases mem_cartUpsert hp with rfl | hp'
    · exact hq
    · exact h p hp'
  · rw [if_neg hq]
    intro p hp
    exact h p (mem_cartErase hp)

theorem cartInv_update_cart (items : List Item)
    (payload : List (String × Option ℚ)) :
    ∀ {cart : Cart}, CartInv cart → CartInv (update_cart items cart payload) := by
  induction payload with
  | nil => intro cart h; exact h
  | cons p rest ih =>
    intro cart h
    rw [update_cart_cons]
    exact ih (cartInv_update_cart_step items h p.1 p.2)

theorem cartInv_cart_update_line (items : List Item) {cart : Cart}
    (h : CartInv cart) (code : String) (raw : Option ℚ) :
    CartInv (cart_update_line items cart code raw) := by
  unfold cart_update_line
  by_cases hq : 0 < parseQty raw
  · rw [if_pos hq]
    intro p hp
    rcases mem_cartUpsert hp with rfl | hp'
    · exact hq
    · exact h p hp'
  · rw [if_neg hq]
    intro p hp
    exact h p (mem_cartErase hp)

theorem cartInv_applyCartOp (items : List Item) {cart : Cart}
    (h : CartInv cart) (op : CartOp) : CartInv (applyCartOp items cart op) := by
  cases op with
  | batch payload => exact cartInv_update_cart items payload h
  | line code raw => exact cartInv_cart_update_line items h code raw
  | drop code => exact fun p hp => h p (mem_cartErase hp)

theorem cartInv_applyCartOps (items : List Item) (ops : List CartOp) :
    ∀ {cart : Cart}, CartInv cart → CartInv (applyCartOps items cart ops) := by
  induction ops with
  | nil => intro cart h; exact h
  | cons op rest ih =>
    intro cart h
    exact ih (cartInv_applyCartOp items h op)

/-! ### How one `update_cart` step affects lookups -/

theorem update_cart_step_lookup_ne (items : List Item) (cart : Cart)
    (code c : String) (raw : Option ℚ) (h : c ≠ code) :
    cartLookup (update_cart_step items cart code raw) c = cartLookup cart c := by
  unfold update_cart_step
  by_cases hq : 0 < parseQty raw
  · rw [if_pos hq]; exact cartLookup_upsert_ne cart code c _ h
  · rw [if_neg hq]; exact cartLookup_erase_ne cart code c h

theorem update_cart_step_lookup_self (items : List Item) (cart : Cart)
    (code : String) (raw : Option ℚ) :
    cartLookup (update_cart_step items cart code raw) code =
      if 0 < parseQty raw then some ⟨parseQty raw, itemName items code⟩
      else none := by
  unfold update_cart_step
  by_cases hq : 0 < parseQty raw
  · rw [if_pos hq, if_pos hq]; exact cartLookup_upsert_self cart code _
  · rw [if_neg hq, if_neg hq]; exact cartLookup_erase_self cart code

theorem update_cart_lookup_not_mem (items : List Item)
    (payload : List (String × Option ℚ)) (code : String)
    (h : code ∉ payload.map Prod.fst) :
    ∀ cart : Cart,
      cartLookup (update_cart items cart payload) code = cartLookup cart code := by
  induction payload with
  | nil => intro cart; rfl
  | cons p rest ih =>
    intro cart
    simp only [List.map_cons, List.mem_cons, not_or] at h
    rw [update_cart_cons, ih h.2,
      update_cart_step_lookup_ne items cart p.1 code p.2 h.1]

theorem update_cart_lookup_mem (items : List Item)
    (payload : List (String × Option ℚ)) (code : String)
    (h : code ∈ payload.map Prod.fst) :
    ∀ X Y : Cart,
      cartLookup (update_cart items X payload) code =
        cartLookup (update_cart items Y payload) code := by
  induction payload with
  | nil => simp at h
  | cons p rest ih =>
    intro X Y
    by_cases hr : code ∈ rest.map Prod.fst
    · rw [update_cart_cons, update_cart_cons]
      exact ih hr _ _
    · have hc : code = p.1 := by
        simp only [List.map_cons, List.mem_cons] at h
        exact h.resolve_right hr

      rw [update_cart_cons, update_cart_cons,
        update_cart_lookup_not_mem items rest code hr,
        update_cart_lookup_not_mem items rest code hr, hc,
        update_cart_step_lookup_self, update_cart_step_lookup_self]

/-! ### The `submit_order` line loop -/

theorem mem_foldl_insertLine_of_mem (oid : ℕ) (cart : Cart) :
    ∀ (ls : List LineRow) (ln : LineRow), ln ∈ ls →
      ln ∈ cart.foldl (insertLine oid) ls := by
  induction cart with
  | nil => intro ls ln h; exact h
  | cons p t ih =>
    intro ls ln h
    rw [List.foldl_cons]
    refine ih _ ln ?_
    unfold insertLine
    by_cases hq : 0 < p.2.qty
    · rw [if_pos hq]; exact List.mem_append_left _ h
    · rw [if_neg hq]; exact h

theorem mem_foldl_insertLine (oid : ℕ) (cart : Cart) :
    ∀ (ls : List LineRow) (ln : LineRow), ln ∈ cart.foldl (insertLine oid) ls →
      ln ∈ ls ∨ ∃ p ∈ cart, 0 < p.2.qty ∧ ln.item_code = p.1 ∧
        ln.quantity = p.2.qty ∧ ln.order_id = oid := by
  induction cart with
  | nil => intro ls ln h; exact Or.inl h
  | cons p t ih =>
    intro ls ln h
    rw [List.foldl_cons] at h
    rcases ih _ ln h with h' | ⟨q, hq, hpos, h1, h2, h3⟩
    · unfold insertLine at h'
      by_cases hq : 0 < p.2.qty
      · rw [if_pos hq] at h'
        rcases List.mem_append.mp h' with h'' | h''
        · exact Or.inl h''
        · obtain rfl := List.mem_singleton.mp h''
          exact Or.inr ⟨p, List.mem_cons_self .., hq, rfl, rfl, rfl⟩
      · rw [if_neg hq] at h'
        exact Or.inl h'
    · exact Or.inr ⟨q, List.mem_cons_of_mem _ hq, hpos, h1, h2, h3⟩

theorem exists_line_of_mem_cart (oid : ℕ) (cart : Cart)
    {p : String × CartRec} (hp : p ∈ cart) (hq : 0 < p.2.qty) :
    ∀ ls : List LineRow, ∃ ln ∈ cart.foldl (insertLine oid) ls,
      ln.item_code = p.1 ∧ ln.quantity = p.2.qty := by
  induction cart with
  | nil => exact absurd hp (List.not_mem_nil p)
  | cons q t ih =>
    intro ls
    rw [List.foldl_cons]
    rcases List.mem_cons.mp hp with rfl | hp'
    · refine ⟨⟨nextRowId (ls.map (·.id)), oid, p.1, p.2.qty⟩, ?_, rfl, rfl⟩
      refine mem_foldl_insertLine_of_mem oid t _ _ ?_
      unfold insertLine
      rw [if_pos hq]
      exact List.mem_append_right _ (List.mem_singleton.mpr rfl)
    · exact ih hp' _

/-! ### Claim theorems -/

/-- **C1.**  An `update_cart` submission never removes or alters cart
entries for item codes outside its payload; and after two submissions
touching disjoint item-code sets, starting from an empty cart, the cart
holds — per code — the surviving entry of whichever submission touched
that code (the union of the surviving entries, latest quantity per
code). -/
theorem update_cart_preserves_untouched_codes (items : List Item) :
    (∀ (cart : Cart) (payload : List (String × Option ℚ)) (code : String),
        code ∉ payload.map Prod.fst →
        cartLookup (update_cart items cart payload) code = cartLookup cart code) ∧
    (∀ p₁ p₂ : List (String × Option ℚ),
        (∀ c ∈ p₁.map Prod.fst, c ∉ p₂.map Prod.fst) →
        ∀ code : String,
          cartLookup (update_cart items (update_cart items [] p₁) p₂) code =
            if code ∈ p₂.map Prod.fst then
              cartLookup (update_cart items [] p₂) code
            else cartLookup (update_cart items [] p₁) code) := by
  refine ⟨fun cart payload code h =>
    update_cart_lookup_not_mem items payload code h cart, ?_⟩
  intro p₁ p₂ _ code
  by_cases h2 : code ∈ p₂.map Prod.fst
  · rw [if_pos h2]
    exact update_cart_lookup_mem items p₂ code h2 _ _
  · rw [if_neg h2]
    exact update_cart_lookup_not_mem items p₂ code h2 _

/-- Witness for `update_cart_preserves_untouched_codes`: a submission
for item `B` leaves the entry for `A` alone, and two disjoint
submissions merge. -/
theorem update_cart_preserves_untouched_codes_w :
    cartLookup (update_cart [] [("A", ⟨2, ""⟩)] [("B", some 3)]) "A" =
        cartLookup [("A", (⟨2, ""⟩ : CartRec))] "A" ∧
    cartLookup (update_cart [] (update_cart [] [] [("A", some 2)])
        [("B", some 3)]) "A" =
      if "A" ∈ ([("B", (some 3 : Option ℚ))].map Prod.fst) then
        cartLookup (update_cart [] [] [("B", some 3)]) "A"
      else cartLookup (update_cart [] [] [("A", some 2)]) "A" :=
  ⟨(update_cart_preserves_untouched_codes []).1 _ _ "A" (by decide),
    (update_cart_preserves_untouched_codes []).2 [("A", some 2)]
      [("B", some 3)] (by decide) "A"⟩

/-- **C9.**  Every entry of any cart reachable by the application's cart
operations has a strictly positive quantity; and a submission whose
quantity parses to `≤ 0` (including unparsable text) removes the code
from the cart, as an idempotent no-op when the code is absent. -/
theorem cart_quantities_always_positive (items : List Item) :
    (∀ (ops : List CartOp) (code : String) (rec : CartRec),
        cartLookup (applyCartOps items [] ops) code = some rec →
        0 < rec.qty) ∧
    (∀ (cart : Cart) (code : String) (raw : Option ℚ), parseQty raw ≤ 0 →
        cartLookup (update_cart_step items cart code raw) code = none ∧
        cartLookup (cart_update_line items cart code raw) code = none ∧
        (cartLookup cart code = none →
          update_cart_step items cart code raw = cart ∧
          cart_update_line items cart code raw = cart)) := by
  constructor
  · intro ops code rec h
    have hinv : CartInv (applyCartOps items [] ops) :=
      cartInv_applyCartOps items ops (fun p hp => absurd hp (List.not_mem_nil p))
    exact hinv _ (cartLookup_mem h)
  · intro cart code raw hq
    have hq' : ¬0 < parseQty raw := not_lt.mpr hq
    refine ⟨?_, ?_, fun habs => ⟨?_, ?_⟩⟩
    · unfold update_cart_step
      rw [if_neg hq']
      exact cartLookup_erase_self cart code
    · unfold cart_update_line
      rw [if_neg hq']
      exact cartLookup_erase_self cart code
    · unfold update_cart_step
      rw [if_neg hq']
      exact cartErase_of_not_mem cart code habs
    · unfold cart_update_line
      rw [if_neg hq']
      exact cartErase_of_not_mem cart code habs

/-- Witness for `cart_quantities_always_positive`: the entry created by
a concrete submission is positive, and an unparsable quantity for an
absent code leaves the cart unchanged. -/
theorem cart_quantities_always_positive_w :
    (0 : ℚ) < (⟨2, ""⟩ : CartRec).qty ∧
    update_cart_step [] [("B", ⟨1, ""⟩)] "A" none = [("B", ⟨1, ""⟩)] :=
  ⟨(cart_quantities_always_positive []).1 [.batch [("A", some 2)]] "A"
      ⟨2, ""⟩ (by decide),
    (((cart_quantities_always_positive []).2 [("B", ⟨1, ""⟩)] "A" none
      (by decide)).2.2 (by decide)).1⟩

/-- **C10.**  A positive-quantity submission for a code absent from the
loaded catalog still creates a cart entry, with `""` as its snapshot
name — neither handler checks catalog membership or entitlement — and
any positive cart entry is later persisted to the ledger by
`submit_order`. -/
theorem uncataloged_code_enters_cart_and_ledger :
    (∀ (items : List Item) (cart : Cart) (code : String) (q : ℚ),
        0 < q → (∀ i ∈ items, i.code ≠ code) →
        cartLookup (update_cart_step items cart code (some q)) code =
          some ⟨q, ""⟩) ∧
    (∀ (items : List Item) (cart : Cart) (code : String) (q : ℚ),
        0 < q → (∀ i ∈ items, i.code ≠ code) →
        cartLookup cart code = none →
        cartLookup (cart_update_line items cart code (some q)) code =
          some ⟨q, ""⟩) ∧
    (∀ (led : Ledger) (cart : Cart) (cid sm ca dd code : String)
        (rec : CartRec),
        cid ≠ "" → cartLookup cart code = some rec → 0 < rec.qty →
        ∃ ln ∈ (submit_order led cart cid sm ca dd).ledger.lines,
          ln.item_code = code ∧ ln.quantity = rec.qty) := by
  have hname : ∀ (items : List Item) (code : String),
      (∀ i ∈ items, i.code ≠ code) → itemName items code = "" := by
    intro items code h
    unfold itemName
    rw [List.find?_eq_none.mpr]
    intro i hi
    simpa using h i hi
  refine ⟨?_, ?_, ?_⟩
  · intro items cart code q hq hcat
    rw [update_cart_step_lookup_self]
    have hpq : parseQty (some q) = q := rfl
    rw [hpq, if_pos hq, hname items code hcat]
  · intro items cart code q hq hcat habs
    unfold cart_update_line
    have hpq : parseQty (some q) = q := rfl
    rw [hpq, if_pos hq, habs, hname items code hcat]
    exact cartLookup_upsert_self cart code _
  · intro led cart cid sm ca dd code rec hcid hlook hq
    have hcart : cart ≠ [] := by
      intro h
      rw [h] at hlook
      simp [cartLookup] at hlook
    unfold submit_order
    rw [if_neg hcid, if_neg hcart]
    exact exists_line_of_mem_cart _ cart (cartLookup_mem hlook) hq led.lines

/-- Witness for `uncataloged_code_enters_cart_and_ledger` on a concrete
uncataloged code `"Z"` and a one-line cart. -/
theorem uncataloged_code_enters_cart_and_ledger_w :
    cartLookup (update_cart_step [⟨"1", "n", "A", "X", "S"⟩] [] "Z" (some 2))
        "Z" = some ⟨2, ""⟩ ∧
    cartLookup (cart_update_line [⟨"1", "n", "A", "X", "S"⟩] [] "Z" (some 2))
        "Z" = some ⟨2, ""⟩ ∧
    ∃ ln ∈ (submit_order ⟨[], []⟩ [("Z", ⟨2, ""⟩)] "c1" "m"
        "2024-01-02T03:04:05" "").ledger.lines,
      ln.item_code = "Z" ∧ ln.quantity = (⟨2, ""⟩ : CartRec).qty :=
  ⟨uncataloged_code_enters_cart_and_ledger.1 _ [] "Z" 2 (by decide) (by decide),
    uncataloged_code_enters_cart_and_ledger.2.1 _ [] "Z" 2 (by decide)
      (by decide) (by decide),
    uncataloged_code_enters_cart_and_ledger.2.2 ⟨[], []⟩ [("Z", ⟨2, ""⟩)]
      "c1" "m" "2024-01-02T03:04:05" "" "Z" ⟨2, ""⟩ (by decide) (by decide)
      (by decide)⟩

/-- **C4.**  `submit_order` persists only lines with positive quantity;
and — for the carts the application can actually build, whose entries
are all positive (`CartInv`) — a submission with zero persistable lines
is rejected as an empty order with nothing written to the ledger,
neither a header row nor a line. -/
theorem submit_order_only_positive_lines :
    (∀ (led : Ledger) (cart : Cart) (cid sm ca dd : String) (ln : LineRow),
        ln ∈ (submit_order led cart cid sm ca dd).ledger.lines →
        ln ∈ led.lines ∨ 0 < ln.quantity) ∧
    (∀ (led : Ledger) (cart : Cart) (cid sm ca dd : String),
        cid ≠ "" → CartInv cart →
        cart.filter (fun p => decide (0 < p.2.qty)) = [] →
        (submit_order led cart cid sm ca dd).result = .emptyCart ∧
        (submit_order led cart cid sm ca dd).ledger = led) := by
  constructor
  · intro led cart cid sm ca dd ln hln
    unfold submit_order at hln
    by_cases hcid : cid = ""
    · rw [if_pos hcid] at hln
      exact Or.inl hln
    · rw [if_neg hcid] at hln
      by_cases hcart : cart = []
      · rw [if_pos hcart] at hln
        exact Or.inl hln
      · rw [if_neg hcart] at hln
        rcases mem_foldl_insertLine _ cart _ ln hln with h | ⟨p, _, hpos, _, h2, _⟩
        · exact Or.inl h
        · exact Or.inr (h2 ▸ hpos)
  · intro led cart cid sm ca dd hcid hinv hfil
    have hcart : cart = [] := by
      cases cart with
      | nil => rfl
      | cons p t =>
        have hp : 0 < p.2.qty := hinv p (List.mem_cons_self ..)
        rw [List.filter_cons, if_pos (by simpa using hp)] at hfil
        exact absurd hfil (List.cons_ne_nil p _)
    subst hcart
    unfold submit_order
    rw [if_neg hcid, if_pos rfl]
    exact ⟨rfl, rfl⟩

/-- Witness for `submit_order_only_positive_lines`: a line of a concrete
successful submission, and the rejection of an empty cart. -/
theorem submit_order_only_positive_lines_w :
    ((⟨1, 1, "A", 2⟩ : LineRow) ∈ (⟨[], []⟩ : Ledger).lines ∨
      (0 : ℚ) < (⟨1, 1, "A", 2⟩ : LineRow).quantity) ∧
    (submit_order ⟨[], []⟩ [] "c1" "m" "2024-01-02T03:04:05" "").result =
        .emptyCart ∧
    (submit_order ⟨[], []⟩ [] "c1" "m" "2024-01-02T03:04:05" "").ledger =
        ⟨[], []⟩ :=
  ⟨submit_order_only_positive_lines.1 ⟨[], []⟩ [("A", ⟨2, ""⟩)] "c1" "m"
      "2024-01-02T03:04:05" "" ⟨1, 1, "A", 2⟩ (by decide),
    submit_order_only_positive_lines.2 ⟨[], []⟩ [] "c1" "m"
      "2024-01-02T03:04:05" ""
      (by decide) (fun p hp => absurd hp (List.not_mem_nil p)) (by decide)⟩

theorem foldr_max_init (l : List ℕ) (b : ℕ) :
    l.foldr max b = max b (l.foldr max 0) := by
  induction l with
  | nil => simp
  | cons a t ih =>
    simp only [List.foldr_cons, ih]
    rw [max_left_comm]

theorem maxOrderId_after_submit (led : Ledger) (cart : Cart)
    (cid sm ca dd : String) (hcid : cid ≠ "") (hcart : cart ≠ []) :
    (submit_order led cart cid sm ca dd).result = .ok (maxOrderId led + 1) ∧
    maxOrderId (submit_order led cart cid sm ca dd).ledger =
      maxOrderId led + 1 := by
  unfold submit_order
  rw [if_neg hcid, if_neg hcart]
  refine ⟨rfl, ?_⟩
  simp only [maxOrderId, List.map_append, List.foldr_append, List.map_cons,
    List.map_nil, List.foldr_cons, List.foldr_nil, Nat.max_zero]
  rw [foldr_max_init]
  unfold nextRowId
  omega

theorem runSubmits_serials (subs : List SubmitReq) :
    ∀ led : Ledger, (∀ s ∈ subs, s.cid ≠ "" ∧ s.cart ≠ []) →
      (runSubmits led subs).2 =
        List.range' (maxOrderId led + 1) subs.length := by
  induction subs with
  | nil => intro led _; rfl
  | cons s rest ih =>
    intro led h
    have hs := h s (List.mem_cons_self ..)
    have hm := maxOrderId_after_submit led s.cart s.cid s.sm s.created_at
      s.dd hs.1 hs.2
    show ((match (submit_order led s.cart s.cid s.sm s.created_at
          s.dd).result with
        | .ok oid => [oid] | _ => []) ++
      (runSubmits (submit_order led s.cart s.cid s.sm s.created_at
          s.dd).ledger rest).2) = _
    rw [hm.1, ih _ (fun t ht => h t (List.mem_cons_of_mem _ ht)), hm.2]
    simp [List.range'_succ]

/-- **C3.**  Starting from an empty ledger, `N` sequential valid order
submissions receive the serials `1, 2, …, N` — a strictly increasing run
with no gaps starting at 1 — and every successful submission's serial is
one more than the maximum serial stored before it (`0` if none). -/
theorem order_serials_sequential :
    (∀ subs : List SubmitReq, (∀ s ∈ subs, s.cid ≠ "" ∧ s.cart ≠ []) →
        (runSubmits ⟨[], []⟩ subs).2 = List.range' 1 subs.length) ∧
    (∀ (led : Ledger) (cart : Cart) (cid sm ca dd : String),
        cid ≠ "" → cart ≠ [] →
        (submit_order led cart cid sm ca dd).result =
          .ok ((led.orders.map (·.id)).foldr max 0 + 1)) := by
  constructor
  · intro subs h
    simpa [maxOrderId] using runSubmits_serials subs ⟨[], []⟩ h
  · intro led cart cid sm ca dd h1 h2
    exact (maxOrderId_after_submit led cart cid sm ca dd h1 h2).1

/-- Witness for `order_serials_sequential`: two concrete submissions get
serials `[1, 2]`, and a submission against a ledger holding order `7`
gets serial `8`. -/
theorem order_serials_sequential_w :
    (runSubmits ⟨[], []⟩
        [⟨[("A", ⟨1, ""⟩)], "c1", "", "2024-01-01T00:00:00", ""⟩,
          ⟨[("B", ⟨2, ""⟩)], "c2", "", "2024-01-01T00:00:01", ""⟩]).2 =
      List.range' 1 2 ∧
    (submit_order ⟨[⟨7, "c9", "m", "2024-01-01T00:00:00", none⟩], []⟩
        [("A", ⟨1, ""⟩)] "c1" "" "2024-01-01T00:00:02" "").result =
      .ok ((([⟨7, "c9", "m", "2024-01-01T00:00:00", none⟩] :
        List OrderRow).map (·.id)).foldr max 0 + 1) :=
  ⟨order_serials_sequential.1 _ (by decide),
    order_serials_sequential.2 _ [("A", ⟨1, ""⟩)] "c1" ""
      "2024-01-01T00:00:02" "" (by decide) (by decide)⟩

/-! ### The string comparator is a total preorder -/

theorem charListLe_total : ∀ as bs : List Char,
    charListLe as bs = true ∨ charListLe bs as = true := by
  intro as
  induction as with
  | nil => intro bs; exact Or.inl rfl
  | cons a as ih =>
    intro bs
    cases bs with
    | nil => exact Or.inr rfl
    | cons b bs =>
      rcases lt_trichotomy a b with h | h | h
      · exact Or.inl (by simp [charListLe, h])
      · subst h
        rcases ih bs with h' | h'
        · exact Or.inl (by simp [charListLe, lt_irrefl, h'])
        · exact Or.inr (by simp [charListLe, lt_irrefl, h'])
      · exact Or.inr (by simp [charListLe, h])

theorem charListLe_trans : ∀ as bs cs : List Char,
    charListLe as bs = true → charListLe bs cs = true →
    charListLe as cs = true := by
  intro as
  induction as with
  | nil => intro bs cs _ _; rfl
  | cons a as ih =>
    intro bs cs h1 h2
    cases bs with
    | nil => simp [charListLe] at h1
    | cons b bs =>
      cases cs with
      | nil => simp [charListLe] at h2
      | cons c cs =>
        rcases lt_trichotomy a b with hab | hab | hab
        · rcases lt_trichotomy b c with hbc | hbc | hbc
          · simp [charListLe, lt_trans hab hbc]
          · subst hbc; simp [charListLe, hab]
          · simp [charListLe, lt_asymm hbc, hbc] at h2
        · subst hab
          rcases lt_trichotomy a c with hac | hac | hac
          · simp [charListLe, hac]
          · subst hac
            simp only [charListLe, lt_irrefl, if_neg (lt_irrefl a)] at h1 h2 ⊢
            exact ih bs cs h1 h2
          · simp [charListLe, lt_asymm hac, hac] at h2
        · simp [charListLe, lt_asymm hab, hab] at h1

instance : IsTotal String strLeP :=
  ⟨fun a b => charListLe_total a.data b.data⟩

instance : IsTrans String strLeP :=
  ⟨fun a b c h1 h2 => charListLe_trans a.data b.data c.data h1 h2⟩

/-- What `sortedDistinct` delivers: an ascending, duplicate-free list
with exactly the members of its input. -/
theorem sortedDistinct_spec (l : List String) :
    (sortedDistinct l).Sorted strLeP ∧ (sortedDistinct l).Nodup ∧
      ∀ v, v ∈ sortedDistinct l ↔ v ∈ l := by
  unfold sortedDistinct
  refine ⟨List.sorted_insertionSort strLeP _,
    ((List.perm_insertionSort strLeP _).nodup_iff).mpr (List.nodup_dedup _),
    ?_⟩
  intro v
  rw [List.mem_insertionSort, List.mem_dedup]

/-- **C2 counterexample.**  With scope `"all"`, the facet lists come
from the unfiltered catalog: after selecting domain `A`, category `Y`
is still offered although no domain-`A` item has category `Y`. -/
theorem facet_values_ignore_cascade_position :
    "Y" ∈ facet_categories
        [⟨"1", "n1", "A", "X", "S1"⟩, ⟨"2", "n2", "B", "Y", "S2"⟩]
        [] "c1" "all" "A" "" "" "" ∧
    (∀ i ∈ [(⟨"1", "n1", "A", "X", "S1"⟩ : Item), ⟨"2", "n2", "B", "Y", "S2"⟩],
      i.domain = "A" → i.category ≠ "Y") := by decide

/-- **C2 (amended).**  Each facet list is the ascending duplicate-free
list of the values occurring in `context_items` — the unfiltered catalog
when the scope is `"all"` or no customer is selected, and otherwise the
fully filtered grid, the stage's own and downstream selections
included. -/
theorem facet_values_from_context :
    ∀ (items : List Item) (ci : List CustRow)
      (cid sh dom cat sub q : String),
      ((facet_domains items ci cid sh dom cat sub q).Sorted strLeP ∧
        (facet_domains items ci cid sh dom cat sub q).Nodup ∧
        ∀ v, v ∈ facet_domains items ci cid sh dom cat sub q ↔
          ∃ i ∈ context_items items ci cid sh dom cat sub q,
            i.domain = v) ∧
      ((facet_categories items ci cid sh dom cat sub q).Sorted strLeP ∧
        (facet_categories items ci cid sh dom cat sub q).Nodup ∧
        ∀ v, v ∈ facet_categories items ci cid sh dom cat sub q ↔
          ∃ i ∈ context_items items ci cid sh dom cat sub q,
            i.category = v) ∧
      ((facet_subcategories items ci cid sh dom cat sub q).Sorted strLeP ∧
        (facet_subcategories items ci cid sh dom cat sub q).Nodup ∧
        ∀ v, v ∈ facet_subcategories items ci cid sh dom cat sub q ↔
          ∃ i ∈ context_items items ci cid sh dom cat sub q,
            i.subcategory = v) := by
  intro items ci cid sh dom cat sub q
  refine ⟨⟨(sortedDistinct_spec _).1, (sortedDistinct_spec _).2.1, ?_⟩,
    ⟨(sortedDistinct_spec _).1, (sortedDistinct_spec _).2.1, ?_⟩,
    ⟨(sortedDistinct_spec _).1, (sortedDistinct_spec _).2.1, ?_⟩⟩
  · intro v
    unfold facet_domains
    rw [(sortedDistinct_spec _).2.2, List.mem_map]
  · intro v
    unfold facet_categories
    rw [(sortedDistinct_spec _).2.2, List.mem_map]
  · intro v
    unfold facet_subcategories
    rw [(sortedDistinct_spec _).2.2, List.mem_map]

/-- **C5 counterexample.**  A customer with zero entitlement rows gets
the plain empty allow-list — the resolver output has no distinct
"no records" signal — and the customer-scope grid is empty rather than
falling back to the (nonempty) full catalog. -/
theorem no_entitlement_rows_counterexample :
    allowedCodes [] "c1" = ([] : List String) ∧
    visible_items [⟨"1", "n", "A", "X", "S"⟩] [] "c1" "customer"
      "" "" "" "" = [] ∧
    ([⟨"1", "n", "A", "X", "S"⟩] : List Item) ≠ [] := by decide

/-- **C5 (amended).**  A customer with zero entitlement rows across all
sources resolves to the plain empty allow-list and is treated exactly
like an explicit empty set: in customer scope no item is visible,
whatever the filter parameters; no absence signal or automatic
full-catalog fallback exists. -/
theorem no_entitlement_rows_empty_grid :
    ∀ (items : List Item) (ci : List CustRow) (cid dom cat sub q : String),
      (∀ r ∈ ci, r.1 ≠ cid) →
      allowedCodes ci cid = [] ∧
      visible_items items ci cid "customer" dom cat sub q = [] := by
  intro items ci cid dom cat sub q h
  have hac : allowedCodes ci cid = [] := by
    unfold allowedCodes
    rw [List.filter_eq_nil_iff.mpr (fun r hr => by simpa using h r hr)]
    rfl
  refine ⟨hac, ?_⟩
  unfold visible_items
  by_cases hcid : cid = ""
  · rw [if_pos hcid]
  · rw [if_neg hcid]
    simp [hac, List.insertionSort]

/-- Witness for `no_entitlement_rows_empty_grid` on a concrete customer
whose number appears in no entitlement row. -/
theorem no_entitlement_rows_empty_grid_w :
    allowedCodes [("c2", "9")] "c1" = [] ∧
    visible_items [⟨"1", "n", "A", "X", "S"⟩] [("c2", "9")] "c1"
      "customer" "" "" "" "" = [] :=
  no_entitlement_rows_empty_grid _ _ "c1" "" "" "" "" (by decide)

/-- **C6 counterexample.**  Exporting an empty ledger yields a sheet
with no columns at all, not the configured target header set. -/
theorem empty_export_has_no_header :
    (admin_export ⟨[], []⟩ DEFAULT_EXPORT_ORDER DEFAULT_EXPORT_FIXED
      "" "").header = [] ∧
    DEFAULT_EXPORT_ORDER ≠ [] := by decide

/-- **C6 (amended).**  An export whose query yields no rows returns the
empty table — zero data rows and an *empty* header, as
`pd.DataFrame().to_excel` produces — and never an error; when the query
is nonempty the table carries the configured header and rectangular
rows. -/
theorem export_empty_result_shape :
    ∀ (led : Ledger) (fields : List String)
      (fixed : List (String × String)) (f t : String),
      (query_orders led f t = [] →
        admin_export led fields fixed f t = ⟨[], []⟩) ∧
      (query_orders led f t ≠ [] →
        (admin_export led fields fixed f t).header = fields ∧
        ∀ row ∈ (admin_export led fields fixed f t).rows,
          row.length = fields.length) := by
  intro led fields fixed f t
  constructor
  · intro h
    simp [admin_export, h]
  · intro h
    refine ⟨by simp [admin_export, h], ?_⟩
    intro row hrow
    simp only [admin_export, if_neg h] at hrow
    rcases List.mem_map.mp hrow with ⟨r, _, rfl⟩
    simp

/-- Witness for `export_empty_result_shape`: the empty ledger exports as
the empty table; a one-line ledger exports with the default header. -/
theorem export_empty_result_shape_w :
    admin_export ⟨[], []⟩ DEFAULT_EXPORT_ORDER DEFAULT_EXPORT_FIXED "" ""
        = ⟨[], []⟩ ∧
    (admin_export ⟨[⟨1, "c1", "m", "2024-01-02T03:04:05", none⟩],
        [⟨1, 1, "A", 2⟩]⟩ DEFAULT_EXPORT_ORDER DEFAULT_EXPORT_FIXED
        "" "").header = DEFAULT_EXPORT_ORDER :=
  ⟨(export_empty_result_shape ⟨[], []⟩ DEFAULT_EXPORT_ORDER
      DEFAULT_EXPORT_FIXED "" "").1 (by decide),
    ((export_empty_result_shape ⟨[⟨1, "c1", "m", "2024-01-02T03:04:05",
      none⟩], [⟨1, 1, "A", 2⟩]⟩ DEFAULT_EXPORT_ORDER DEFAULT_EXPORT_FIXED
      "" "").2 (by decide)).1⟩

/-- **C7 counterexample.**  A ledger reachable by the application's own
operations — one order whose cart was filled with `B` before `A` —
whose export query rows are *not* sorted by item code within the
order. -/
theorem export_rows_not_sorted_by_item_code :
    ¬ (query_orders
        (submit_order ⟨[], []⟩
          (update_cart [] [] [("B", some 1), ("A", some 1)])
          "c1" "m" "2024-01-02T03:04:05" "").ledger
        "" "").Pairwise specExportLe := by decide

/-- **C7 (amended).**  Export query rows are sorted by order id and,
within an order, by line row id — the insertion order of the lines, not
the item code — and are a permutation of the range-filtered join.  The
sort is deterministic: `query_orders` is a function of the ledger and
the range bounds. -/
theorem export_rows_sorted_by_order_then_line :
    ∀ (led : Ledger) (from_dt to_dt : String),
      (query_orders led from_dt to_dt).Pairwise qRowLe ∧
      (query_orders led from_dt to_dt).Perm
        (rangeFilteredRows led from_dt to_dt) := by
  intro led f t
  exact ⟨List.sorted_insertionSort qRowLe _,
    List.perm_insertionSort qRowLe _⟩

/-- **C8 counterexample.**  The query `"dai"` is a case-insensitive
substring of the item's domain `"Dairy"`, yet the item is filtered
out: the mask searches only name and code. -/
theorem q_search_ignores_taxonomy_fields :
    specQMatch ⟨"1", "Milk", "Dairy", "X", "S"⟩ "dai" = true ∧
    visible_items [⟨"1", "Milk", "Dairy", "X", "S"⟩] [] "c1" "all"
      "" "" "" "dai" = [] := by decide

/-- **C8 (amended).**  The query is handed to pandas `str.contains` as
a regular expression (`regex=True` is its default); for a query free of
regex metacharacters — where regex search is literal substring
containment — the free-text stage keeps exactly the items whose lowered
name or lowered code contains the lowered query.  Domain, category and
subcategory are not searched. -/
theorem q_search_matches_name_or_code :
    ∀ (items : List Item) (ci : List CustRow)
      (cid sh dom cat sub q : String) (i : Item), q ≠ "" →
      isLiteralPattern (lowerStr q) = true →
      (i ∈ visible_items items ci cid sh dom cat sub q ↔
        i ∈ visible_items items ci cid sh dom cat sub "" ∧
          (strContains (lowerStr i.name) (lowerStr q) ||
            strContains (lowerStr i.code) (lowerStr q)) = true) := by
  intro items ci cid sh dom cat sub q i hq _
  unfold visible_items
  by_cases hcid : cid = ""
  · simp [hcid]
  · simp [hcid, hq, List.mem_insertionSort, List.mem_filter, q_match]

/-- Witness for `q_search_matches_name_or_code` on a concrete item and
a concrete metacharacter-free query. -/
theorem q_search_matches_name_or_code_w :
    (⟨"1", "Milk", "Dairy", "X", "S"⟩ : Item) ∈
        visible_items [⟨"1", "Milk", "Dairy", "X", "S"⟩] [] "c1" "all"
          "" "" "" "mil" ↔
      (⟨"1", "Milk", "Dairy", "X", "S"⟩ : Item) ∈
          visible_items [⟨"1", "Milk", "Dairy", "X", "S"⟩] [] "c1" "all"
            "" "" "" "" ∧
        (strContains (lowerStr "Milk") (lowerStr "mil") ||
          strContains (lowerStr "1") (lowerStr "mil")) = true :=
  q_search_matches_name_or_code [⟨"1", "Milk", "Dairy", "X", "S"⟩] []
    "c1" "all" "" "" "" "mil" ⟨"1", "Milk", "Dairy", "X", "S"⟩
    (by decide) (by decide)
